import Mathlib

set_option maxHeartbeats 1000000

/-!
Shallow embedding of `src/cipher_config.c` of SQLite3MultipleCiphers: the
cipher parameter registry (programmatic configuration entry points, the SQL
scalar-function adapter, the URI ingester, and the codec salt readout).

Mutable C state is made explicit: each operation takes the effective codec
parameter table (the per-connection overlay when a connection is present,
else the process-wide global table) and returns its post-state.  External
collaborators (the SQLCipher legacy-version configurator, the cipher
descriptor table, the codec accessors, the `hexdigits` table) are passed as
parameters.  Mutex enter/leave pairs have no observable effect in this
single-request model and are omitted.
-/

/-- ASCII lower-casing of one character, as `sqlite3_stricmp` performs it. -/
def asciiLower (c : Char) : Char :=
  if 'A' ≤ c ∧ c ≤ 'Z' then Char.ofNat (c.toNat + 32) else c

/-- ASCII lower-casing of a string. -/
def lowerStr (s : String) : String := ⟨s.data.map asciiLower⟩

/-- `sqlite3_stricmp(a, b) == 0`: ASCII case-insensitive string equality. -/
def striEq (a b : String) : Bool := lowerStr a == lowerStr b

/-- `sqlite3_strnicmp(s, p, strlen(p)) == 0`: case-insensitive test that `p`
is a prefix of `s`. -/
def hasPfxCI (s p : String) : Bool := (lowerStr p).data.isPrefixOf (lowerStr s).data

/-- Advancing a C string pointer by `n` (ASCII) characters, as in `paramName += n`. -/
def dropChars (s : String) (n : Nat) : String := ⟨s.data.drop n⟩

/-- The view-selection flags recorded while stripping name markers. -/
structure PfxFlags where
  hasDefault : Bool
  hasMin : Bool
  hasMax : Bool
deriving Repr, DecidableEq

/-- The name stripping performed at the top of `sqlite3mc_config` and mirrored in
`sqlite3mc_config_cipher` and `sqlite3mcConfigParams`: `default:`, then `min:`,
then `max:`, in that fixed order, each consumed at most once, case-insensitively. -/
def stripPfx (s : String) : PfxFlags × String :=
  let d := if hasPfxCI s "default:" then (true, dropChars s 8) else (false, s)
  let m := if hasPfxCI d.2 "min:" then (true, dropChars d.2 4) else (false, d.2)
  let x := if hasPfxCI m.2 "max:" then (true, dropChars m.2 4) else (false, m.2)
  (⟨d.1, m.1, x.1⟩, x.2)

/-- One parameter cell (`CipherParams` of `cipher_common.h`): a named slot with
current, default, minimum and maximum values. -/
structure CipherParams where
  m_name : String
  m_value : Int
  m_default : Int
  m_minValue : Int
  m_maxValue : Int
deriving Repr, DecidableEq

/-- One registry entry (`CodecParameter`): a scope name with its parameter table.
Entry 0 of a registry is the common scope. -/
structure CodecParameter where
  m_name : String
  m_params : List CipherParams
deriving Repr, DecidableEq

abbrev ParamTable := List CipherParams
abbrev CodecTable := List CodecParameter

/-- The junk cell read through an out-of-range index (never reached on the
guarded paths). -/
def emptyCell : CipherParams := ⟨"", 0, 0, 0, 0⟩

def emptyEntry : CodecParameter := ⟨"", []⟩

/-- Index of the first list element satisfying `q`: the sentinel-terminated
search loops of the C code. -/
def findIdxP (q : α → Bool) : List α → Option Nat
  | [] => none
  | a :: rest => if q a then some 0 else (findIdxP q rest).map (· + 1)

/-- In-place mutation of the element a C pointer into the table points at. -/
def modifyIdx (f : α → α) : Nat → List α → List α
  | _, [] => []
  | 0, a :: rest => f a :: rest
  | n + 1, a :: rest => a :: modifyIdx f n rest

/-- The common parameter table: `codecParams[0].m_params`. -/
def commonTable (cp : CodecTable) : ParamTable := (cp.headD emptyEntry).m_params

/-- Writing the common parameter table back into entry 0. -/
def setCommonTable (cp : CodecTable) (tbl : ParamTable) : CodecTable :=
  modifyIdx (fun e => { e with m_params := tbl }) 0 cp

/-- The view read
`value = hasDefault ? m_default : hasMin ? m_minValue : hasMax ? m_maxValue : m_value`. -/
def viewValue (fl : PfxFlags) (p : CipherParams) : Int :=
  if fl.hasDefault then p.m_default
  else if fl.hasMin then p.m_minValue
  else if fl.hasMax then p.m_maxValue
  else p.m_value

/-- The cell mutation common to all write paths:
`if (setDefault) param->m_default = v; param->m_value = v;`. -/
def cellWrite (setDefault : Bool) (v : Int) (p : CipherParams) : CipherParams :=
  let p1 := if setDefault then { p with m_default := v } else p
  { p1 with m_value := v }

@[simp] theorem cellWrite_m_name (b : Bool) (v : Int) (p : CipherParams) :
    (cellWrite b v p).m_name = p.m_name := by cases b <;> rfl

@[simp] theorem cellWrite_m_value (b : Bool) (v : Int) (p : CipherParams) :
    (cellWrite b v p).m_value = v := by cases b <;> rfl

@[simp] theorem cellWrite_m_default (b : Bool) (v : Int) (p : CipherParams) :
    (cellWrite b v p).m_default = if b then v else p.m_default := by cases b <;> rfl

@[simp] theorem cellWrite_m_minValue (b : Bool) (v : Int) (p : CipherParams) :
    (cellWrite b v p).m_minValue = p.m_minValue := by cases b <;> rfl

@[simp] theorem cellWrite_m_maxValue (b : Bool) (v : Int) (p : CipherParams) :
    (cellWrite b v p).m_maxValue = p.m_maxValue := by cases b <;> rfl

/-- `sqlite3mc_config`.  `dbPresent` is `db != NULL`; `cpOpt` is the effective
codec parameter table (the per-connection overlay when `db != NULL`, else
`globalCodecParameterTable`), `none` when that lookup produced `NULL`.  The
result pairs the returned `int` with the post-state of the effective table. -/
def sqlite3mc_config (dbPresent : Bool) (cpOpt : Option CodecTable)
    (paramName : Option String) (newValue : Int) : Int × Option CodecTable :=
  match paramName with
  | none => (-1, cpOpt)
  | some name0 =>
    if !dbPresent && decide (0 ≤ newValue) then (-1, cpOpt)
    else
      match cpOpt with
      | none => (-1, none)
      | some cp =>
        let fl := (stripPfx name0).1
        let name := (stripPfx name0).2
        match findIdxP (fun p => striEq name p.m_name) (commonTable cp) with
        | none => (-1, some cp)
        | some i =>
          let param := (commonTable cp).getD i emptyCell
          if !fl.hasMin && !fl.hasMax && decide (0 ≤ newValue)
              && decide (param.m_minValue ≤ newValue)
              && decide (newValue ≤ param.m_maxValue) then
            let tbl := modifyIdx
              (cellWrite (fl.hasDefault && !striEq name "hmac_check") newValue)
              i (commonTable cp)
            (newValue, some (setCommonTable cp tbl))
          else (viewValue fl param, some cp)

/-- The warnings emitted through `sqlite3_log(SQLITE_WARNING, ...)`, kept
structurally (format string plus rendered arguments). -/
inductive Warning where
  | missingName (cipherName paramName : String)
  | globalCipherChange (paramName cipherName : String)
  | tableNotFound
  | legacyOutOfRange (v lo hi : Int)
  | valueOutOfRange (v : Int) (paramName cipherName : String) (lo hi : Int)
deriving Repr, DecidableEq

/-- Modelled from the spec: `SQLCIPHER_VERSION_MAX` lives in `cipher_common.h`,
which is not part of the extracted sources; the spec bounds the legacy version
by it and the released headers set it to 4. -/
def SQLCIPHER_VERSION_MAX : Int := 4

/-- Result of `sqlite3mc_config_cipher`: returned `int`, post-state of the
effective codec parameter table, and the warnings logged during the call. -/
structure CCResult where
  value : Int
  table : Option CodecTable
  warnings : List Warning
deriving Repr, DecidableEq

/-- `sqlite3mc_config_cipher`.  `legacyConf` abstracts the external
`sqlite3mcConfigureSQLCipherVersion(db, hasDefaultPrefix, version)`
collaborator as its action on the effective table. -/
def sqlite3mc_config_cipher (legacyConf : Bool → Int → CodecTable → CodecTable)
    (dbPresent : Bool) (cpOpt : Option CodecTable)
    (cipherName paramName : Option String) (newValue : Int) : CCResult :=
  if cipherName.isNone || paramName.isNone then
    ⟨-1, cpOpt, [.missingName (cipherName.getD "") (paramName.getD "")]⟩
  else
    let cName := cipherName.getD ""
    let pName0 := paramName.getD ""
    if !dbPresent && decide (0 ≤ newValue) then
      ⟨-1, cpOpt, [.globalCipherChange pName0 cName]⟩
    else
      match cpOpt with
      | none => ⟨-1, none, [.tableNotFound]⟩
      | some cp =>
        match findIdxP (fun e => striEq cName e.m_name) cp with
        | none => ⟨-1, some cp, []⟩
        | some j =>
          let fl := (stripPfx pName0).1
          let pName := (stripPfx pName0).2
          let isLegacySpecial := dbPresent && striEq cName "sqlcipher"
                                  && striEq pName "legacy" && !fl.hasMin && !fl.hasMax
          let inLegacyRange := decide (0 < newValue)
                                  && decide (newValue ≤ SQLCIPHER_VERSION_MAX)
          let cp1 := if isLegacySpecial && inLegacyRange
                     then legacyConf fl.hasDefault newValue cp else cp
          let legacyWarn : List Warning :=
            if isLegacySpecial && !inLegacyRange
            then [.legacyOutOfRange newValue 1 SQLCIPHER_VERSION_MAX] else []
          let tbl := (cp1.getD j emptyEntry).m_params
          match findIdxP (fun p => striEq pName p.m_name) tbl with
          | none => ⟨-1, some cp1, legacyWarn⟩
          | some i =>
            let param := tbl.getD i emptyCell
            if !fl.hasMin && !fl.hasMax then
              if decide (0 ≤ newValue) && decide (param.m_minValue ≤ newValue)
                  && decide (newValue ≤ param.m_maxValue) then
                let tbl2 := modifyIdx (cellWrite fl.hasDefault newValue) i tbl
                ⟨newValue, some (modifyIdx (fun e => { e with m_params := tbl2 }) j cp1),
                  legacyWarn⟩
              else
                ⟨viewValue fl param, some cp1,
                  legacyWarn ++ [.valueOutOfRange newValue pName cName
                                   param.m_minValue param.m_maxValue]⟩
            else ⟨viewValue fl param, some cp1, legacyWarn⟩

/-- A tagged pointer as produced by `sqlite3mcConfigTable` through
`sqlite3_result_pointer(context, codecParams, "sqlite3mc_codec_params", 0)`. -/
structure TaggedPtr where
  tag : String
  ptr : Option CodecTable
deriving Repr, DecidableEq

/-- `sqlite3_value_pointer(v, tag)`: yields the pointer only when the type tag
matches exactly; any mismatch yields `NULL`. -/
def sqlite3_value_pointer (v : TaggedPtr) (tag : String) : Option CodecTable :=
  if v.tag == tag then v.ptr else none

/-- A connection, as far as this file observes it: the single row produced by
`SELECT sqlite3mc_config_table();` (`none` when preparing or stepping the
statement failed). -/
structure DbConn where
  configTableRow : Option TaggedPtr
deriving Repr, DecidableEq

/-- `sqlite3mcGetCodecParams`: run the internal overlay query and extract the
pointer under the `"sqlite3mc_codec_params"` type tag. -/
def sqlite3mcGetCodecParams (db : DbConn) : Option CodecTable :=
  match db.configTableRow with
  | some v => sqlite3_value_pointer v "sqlite3mc_codec_params"
  | none => none

/-- `codecParams = (db != NULL) ? sqlite3mcGetCodecParams(db) : globalCodecParameterTable`. -/
def effectiveTable (db : Option DbConn) (globalTable : Option CodecTable) : Option CodecTable :=
  match db with
  | some d => sqlite3mcGetCodecParams d
  | none => globalTable

/-- `sqlite3mc_config` including the selection of the effective table from the
connection or the global registry. -/
def sqlite3mc_config_db (db : Option DbConn) (globalTable : Option CodecTable)
    (paramName : Option String) (newValue : Int) : Int × Option CodecTable :=
  sqlite3mc_config db.isSome (effectiveTable db globalTable) paramName newValue

/-- `sqlite3mc_config_cipher` including the selection of the effective table
from the connection or the global registry. -/
def sqlite3mc_config_cipher_db (legacyConf : Bool → Int → CodecTable → CodecTable)
    (db : Option DbConn) (globalTable : Option CodecTable)
    (cipherName paramName : Option String) (newValue : Int) : CCResult :=
  sqlite3mc_config_cipher legacyConf db.isSome (effectiveTable db globalTable)
    cipherName paramName newValue

/-- An SQL value as the adapter observes it. -/
inductive SqlValue where
  | null
  | int (i : Int)
  | text (s : String)
deriving Repr, DecidableEq

/-- `sqlite3_value_type(v) == SQLITE_NULL`. -/
def sqlIsNull : SqlValue → Bool
  | .null => true
  | _ => false

/-- `sqlite3_value_type(v) == SQLITE_INTEGER`. -/
def sqlIsInt : SqlValue → Bool
  | .int _ => true
  | _ => false

/-- `sqlite3_value_type(v) == SQLITE_TEXT`. -/
def sqlIsText : SqlValue → Bool
  | .text _ => true
  | _ => false

/-- `sqlite3_value_text`: host text conversion (integers render in decimal). -/
def sqlText : SqlValue → String
  | .null => ""
  | .int i => toString i
  | .text s => s

/-- `sqlite3_value_int`: host integer conversion. -/
def sqlInt : SqlValue → Int
  | .null => 0
  | .int i => i
  | .text s => (s.toInt?).getD 0

/-- Result of a scalar SQL function call. -/
inductive SqlResult where
  | null
  | int (i : Int)
  | text (s : String)
deriving Repr, DecidableEq

/-- The 1-argument adapter read of a resolved common parameter: the view
value, rendered as the 1-based descriptor name for the `cipher` parameter. -/
def adapterReadCommon (descs : List String) (fl : PfxFlags) (nameParam1 : String)
    (param1 : CipherParams) : SqlResult :=
  let value := viewValue fl param1
  if striEq nameParam1 "cipher" then .text (descs.getD (value - 1).toNat "")
  else .int value

/-- The 1-argument adapter read of a cipher scope: the comma-separated list of
its parameter names in declared order, nothing when the scope is empty. -/
def adapterListParams (tbl : ParamTable) : SqlResult :=
  if tbl.length > 0 then .text (String.intercalate "," (tbl.map (·.m_name)))
  else .null

/-- The 2-argument adapter write of a resolved common parameter (cell index
`i`): the `cipher` cell is set from a descriptor name (no range check, no
min/max guard), any other cell from an in-range integer (no min/max guard,
`hmac_check` default pinned). -/
def adapterWriteCommon (descs : List String) (fl : PfxFlags) (nameParam1 : String)
    (i : Nat) (cp : CodecTable) (arg1 : SqlValue) : SqlResult × CodecTable :=
  let common := commonTable cp
  let param1 := common.getD i emptyCell
  if striEq nameParam1 "cipher" then
    match arg1 with
    | .text nameCipher =>
      match findIdxP (fun d => striEq nameCipher d) descs with
      | some j =>
        let tbl := modifyIdx (cellWrite fl.hasDefault ((j : Int) + 1)) i common
        (.text (descs.getD j ""), setCommonTable cp tbl)
      | none => (.null, cp)
    | _ => (.null, cp)
  else
    match arg1 with
    | .int value =>
      if decide (param1.m_minValue ≤ value) && decide (value ≤ param1.m_maxValue) then
        let tbl := modifyIdx
          (cellWrite (fl.hasDefault && !striEq nameParam1 "hmac_check") value) i common
        (.int value, setCommonTable cp tbl)
      else (.null, cp)
    | _ => (.null, cp)

/-- The 2/3-argument adapter path for a resolved cipher scope (entry index
`jc`): second argument names the (prefix-stripped) parameter; the 3-argument
form writes it, honoring the SQLCipher legacy special case first. -/
def adapterCipherPath (legacyConf : Bool → Int → CodecTable → CodecTable)
    (argc : Nat) (nameParam1 : String) (jc : Nat) (cp : CodecTable)
    (arg1 arg2 : SqlValue) : SqlResult × CodecTable :=
  match arg1 with
  | .text nameArg1 =>
    let fl2 := (stripPfx nameArg1).1
    let nameParam2 := (stripPfx nameArg1).2
    let pidx := findIdxP (fun p => striEq nameParam2 p.m_name)
                  ((cp.getD jc emptyEntry).m_params)
    let legacyFired := argc == 3 && striEq nameParam1 "sqlcipher"
                        && striEq nameParam2 "legacy" && !fl2.hasMin && !fl2.hasMax
                        && sqlIsInt arg2 && decide (0 < sqlInt arg2)
                        && decide (sqlInt arg2 ≤ SQLCIPHER_VERSION_MAX)
    let cp1 := if legacyFired then legacyConf fl2.hasDefault (sqlInt arg2) cp else cp
    match pidx with
    | none => (.null, cp1)
    | some i =>
      let tbl := (cp1.getD jc emptyEntry).m_params
      let param2 := tbl.getD i emptyCell
      if argc == 2 then (.int (viewValue fl2 param2), cp1)
      else if !fl2.hasMin && !fl2.hasMax && sqlIsInt arg2 then
        let value := sqlInt arg2
        if decide (param2.m_minValue ≤ value) && decide (value ≤ param2.m_maxValue) then
          let tbl2 := modifyIdx (cellWrite fl2.hasDefault value) i tbl
          (.int value, modifyIdx (fun e => { e with m_params := tbl2 }) jc cp1)
        else (.null, cp1)
      else (.null, cp1)
  | _ => (.null, cp)

/-- `sqlite3mcConfigParams`: the 1/2/3-argument scalar function
`sqlite3mc_config(...)`.  `codecDescriptorTable` is the external descriptor
list (names only; its C sentinel is dropped), `cp` the user-data codec
parameter table of this connection, `legacyConf` the external SQLCipher
legacy configurator.  The result pairs the SQL result with the table's
post-state.  First a common-parameter resolution of the (prefix-stripped)
first argument; a cipher-scope resolution only when that fails and no prefix
was present; then the per-arity behavior. -/
def sqlite3mcConfigParams (legacyConf : Bool → Int → CodecTable → CodecTable)
    (codecDescriptorTable : List String) (cp : CodecTable)
    (args : List SqlValue) : SqlResult × CodecTable :=
  let argc := args.length
  if argc == 0 || 3 < argc then (.null, cp)
  else if sqlIsNull (args.getD 0 .null)
       || (1 < argc && sqlIsNull (args.getD 1 .null)) then (.null, cp)
  else
    let nameArg0 := sqlText (args.getD 0 .null)
    let fl := (stripPfx nameArg0).1
    let nameParam1 := (stripPfx nameArg0).2
    match findIdxP (fun p => striEq nameParam1 p.m_name) (commonTable cp) with
    | some i =>
      if argc == 1 then
        (adapterReadCommon codecDescriptorTable fl nameParam1
           ((commonTable cp).getD i emptyCell), cp)
      else if argc == 2 then
        adapterWriteCommon codecDescriptorTable fl nameParam1 i cp (args.getD 1 .null)
      else (.null, cp)
    | none =>
      if fl.hasDefault || fl.hasMin || fl.hasMax then (.null, cp)
      else
        match findIdxP (fun e => striEq nameParam1 e.m_name) cp with
        | none => (.null, cp)
        | some jc =>
          if argc == 1 then (adapterListParams ((cp.getD jc emptyEntry).m_params), cp)
          else adapterCipherPath legacyConf argc nameParam1 jc cp
                 (args.getD 1 .null) (args.getD 2 .null)

/-- The external codec, as far as `sqlite3mc_codec_data` consults it. -/
structure Codec where
  encrypted : Bool
  writeCipher : Bool
  salt : Option (List Nat)
deriving Repr, DecidableEq

/-- The 33-byte hex readout of `sqlite3mc_codec_data`: for `j = start` to
`start + count - 1` emit `f j` then `g j`, then the trailing zero byte.  The C
loop fills `result[2j] = f j`, `result[2j+1] = g j`, `result[32] = 0`. -/
def pairTable (f g : Nat → Nat) (start : Nat) : Nat → List Nat
  | 0 => [0]
  | c + 1 => f start :: g start :: pairTable f g (start + 1) c

/-- The hex encoding of the salt: `result[2j] = hexdigits[(salt[j] >> 4) & 0x0F]`,
`result[2j+1] = hexdigits[salt[j] & 0x0F]` for `j < 16`, then a zero byte. -/
def hexSaltBuffer (hexdigits salt : List Nat) : List Nat :=
  pairTable (fun j => hexdigits.getD (((salt.getD j 0) >>> 4) &&& 15) 0)
            (fun j => hexdigits.getD ((salt.getD j 0) &&& 15) 0) 0 16

/-- The raw readout: `memcpy(result, salt, 16); result[16] = 0`. -/
def rawSaltBuffer (salt : List Nat) : List Nat :=
  (List.range 16).map (fun j => salt.getD j 0) ++ [0]

/-- `sqlite3mc_codec_data`.  `findDbName` abstracts `sqlite3FindDbName`,
`getCodec` abstracts `sqlite3mcGetCodec`, `hexdigits` is the external digit
table.  The result is the returned buffer as a byte list (`none` for `NULL`). -/
def sqlite3mc_codec_data (hexdigits : List Nat) (findDbName : String → Int)
    (getCodec : Int → Option Codec) (dbPresent : Bool)
    (zDbName paramName : Option String) : Option (List Nat) :=
  if !dbPresent then none
  else
    match paramName with
    | none => none
    | some pn0 =>
      let iDb : Int := match zDbName with
                       | some z => findDbName z
                       | none => 0
      let toRaw := hasPfxCI pn0 "raw:"
      let pn := if toRaw then dropChars pn0 4 else pn0
      if striEq pn "cipher_salt" && decide (0 ≤ iDb) then
        match getCodec iDb with
        | none => none
        | some codec =>
          if codec.encrypted && codec.writeCipher then
            match codec.salt with
            | none => none
            | some salt =>
              if !toRaw then some (hexSaltBuffer hexdigits salt)
              else some (rawSaltBuffer salt)
          else none
      else none

/-- `sqlite3_uri_parameter`: the value of the first query parameter with the
given key, exact-match on the key. -/
def uriParameterOf (ps : List (String × String)) (key : String) : Option String :=
  (ps.find? (fun kv => kv.1 == key)).map (·.2)

/-- Modelled from the spec: the host's boolean parsing (`sqlite3_uri_boolean` /
`sqlite3GetBoolean`, external to the extracted sources): `on`/`yes`/`true`
parse as 1, `off`/`no`/`false` as 0, digits by zero-test, anything else as the
default. -/
def sqlite3_uri_boolean (ps : List (String × String)) (key : String) (dflt : Int) : Int :=
  match uriParameterOf ps key with
  | none => dflt
  | some z =>
    let zl := lowerStr z
    if zl == "on" || zl == "yes" || zl == "true" then 1
    else if zl == "off" || zl == "no" || zl == "false" then 0
    else match z.toNat? with
         | some n => if n == 0 then 0 else 1
         | none => dflt

/-- Modelled from the spec: the host's integer accessor (`sqlite3_uri_int64`,
external to the extracted sources): the parameter's value when present and
numeric, else the default. -/
def sqlite3_uri_int64 (ps : List (String × String)) (key : String) (dflt : Int) : Int :=
  match uriParameterOf ps key with
  | none => dflt
  | some z => (z.toInt?).getD dflt

/-- One step of the URI ingester's cipher-parameter loop: if the URI names
this cipher parameter with a non-negative integer value, apply it through
`sqlite3mc_config_cipher` (prefixing `default:` when `configDefault`). -/
def uriCipherStep (legacyConf : Bool → Int → CodecTable → CodecTable)
    (ps : List (String × String)) (cipherName : String) (configDefault : Bool)
    (st : Option CodecTable) (prm : CipherParams) : Option CodecTable :=
  let v := sqlite3_uri_int64 ps prm.m_name (-1)
  if decide (0 ≤ v) then
    let pname := if configDefault then "default:" ++ prm.m_name else prm.m_name
    (sqlite3mc_config_cipher legacyConf true st (some cipherName) (some pname) v).table
  else st

/-- `sqlite3mcConfigureFromUri`.  `globalTable` is `globalCodecParameterTable`
(used for the cipher-name lookup and the per-cipher parameter-name iteration),
`cpOpt` the connection's effective table that the nested `sqlite3mc_config` /
`sqlite3mc_config_cipher` calls write through, `uri` the query parameters of
the database filename (`none` when the filename is `NULL`).  Returns the
result code (0 = `SQLITE_OK`, 1 = `SQLITE_ERROR`) and the post-state. -/
def sqlite3mcConfigureFromUri (legacyConf : Bool → Int → CodecTable → CodecTable)
    (globalTable : CodecTable) (cpOpt : Option CodecTable)
    (uri : Option (List (String × String))) (configDefault : Bool) :
    Int × Option CodecTable :=
  match uri with
  | none => (0, cpOpt)
  | some ps =>
    match uriParameterOf ps "cipher" with
    | none => (0, cpOpt)
    | some cipherName =>
      match findIdxP (fun e => striEq cipherName e.m_name) (globalTable.drop 1) with
      | none => (1, cpOpt)
      | some j0 =>
        let j := j0 + 1
        let cipherParams := (globalTable.getD j emptyEntry).m_params
        let hmacCheck := sqlite3_uri_boolean ps "hmac_check" 1
        let st1 := (sqlite3mc_config true cpOpt
                     (some (if configDefault then "default:cipher" else "cipher"))
                     (Int.ofNat j)).2
        let st2 := if hmacCheck == 0
                   then (sqlite3mc_config true st1 (some "hmac_check") hmacCheck).2
                   else st1
        let st3 := if striEq cipherName "sqlcipher" then
                     let legacy := sqlite3_uri_int64 ps "legacy" 0
                     if decide (0 < legacy) && decide (legacy ≤ SQLCIPHER_VERSION_MAX)
                     then st2.map (legacyConf configDefault legacy)
                     else st2
                   else st2
        let st4 := cipherParams.foldl
          (uriCipherStep legacyConf ps cipherName configDefault) st3
        (0, st4)

/-- One operation of the configuration surface, for reachability statements. -/
inductive MCOp where
  | config (dbPresent : Bool) (name : Option String) (v : Int)
  | configCipher (dbPresent : Bool) (cipherName paramName : Option String) (v : Int)
  | adapter (args : List SqlValue)
  | fromUri (uri : Option (List (String × String))) (configDefault : Bool)

/-- Applying one operation to a codec parameter table. -/
def mcStep (legacyConf : Bool → Int → CodecTable → CodecTable)
    (descs : List String) (glob : CodecTable) (cp : CodecTable) : MCOp → CodecTable
  | .config dbp name v => ((sqlite3mc_config dbp (some cp) name v).2).getD cp
  | .configCipher dbp cn pn v =>
      ((sqlite3mc_config_cipher legacyConf dbp (some cp) cn pn v).table).getD cp
  | .adapter args => (sqlite3mcConfigParams legacyConf descs cp args).2
  | .fromUri uri cfgDef =>
      ((sqlite3mcConfigureFromUri legacyConf glob (some cp) uri cfgDef).2).getD cp

/-- The cell invariant: `min ≤ current ≤ max` and `min ≤ default ≤ max`. -/
def CellInv (p : CipherParams) : Prop :=
  p.m_minValue ≤ p.m_value ∧ p.m_value ≤ p.m_maxValue ∧
  p.m_minValue ≤ p.m_default ∧ p.m_default ≤ p.m_maxValue

instance (p : CipherParams) : Decidable (CellInv p) := by
  unfold CellInv; infer_instance

/-- All cells of a parameter table satisfy the cell invariant. -/
def SchemaInv (tbl : ParamTable) : Prop := ∀ p ∈ tbl, CellInv p

/-- All cells of every scope satisfy the cell invariant. -/
def TableInv (cp : CodecTable) : Prop := ∀ e ∈ cp, SchemaInv e.m_params

/-- Well-formedness of the common `cipher` cell against the external cipher
descriptor table: its range admits every 1-based descriptor index.  The static
tables of the repository satisfy this by construction. -/
def CipherCellBound (descs : List String) (cp : CodecTable) : Prop :=
  ∀ p ∈ commonTable cp, striEq "cipher" p.m_name →
    p.m_minValue ≤ 1 ∧ (descs.length : Int) ≤ p.m_maxValue

instance (tbl : ParamTable) : Decidable (SchemaInv tbl) := by
  unfold SchemaInv
  infer_instance

instance (cp : CodecTable) : Decidable (TableInv cp) := by
  unfold TableInv SchemaInv
  infer_instance

instance (descs : List String) (cp : CodecTable) : Decidable (CipherCellBound descs cp) := by
  unfold CipherCellBound
  infer_instance

theorem modifyIdx_length (f : α → α) (i : Nat) (l : List α) :
    (modifyIdx f i l).length = l.length := by
  induction l generalizing i with
  | nil => cases i <;> rfl
  | cons a rest ih =>
    cases i with
    | zero => rfl
    | succ n => simp [modifyIdx, ih]

theorem mem_modifyIdx {f : α → α} (d : α) {i : Nat} {l : List α} {x : α}
    (hx : x ∈ modifyIdx f i l) : x ∈ l ∨ (i < l.length ∧ x = f (l.getD i d)) := by
  induction l generalizing i with
  | nil => simp [modifyIdx] at hx
  | cons a rest ih =>
    cases i with
    | zero =>
      simp only [modifyIdx, List.mem_cons] at hx
      rcases hx with h | h
      · exact Or.inr ⟨Nat.succ_pos _, by simpa using h⟩
      · exact Or.inl (List.mem_cons_of_mem _ h)
    | succ n =>
      simp only [modifyIdx, List.mem_cons] at hx
      rcases hx with h | h
      · exact Or.inl (by simp [h])
      · rcases ih h with h' | ⟨hlt, heq⟩
        · exact Or.inl (List.mem_cons_of_mem _ h')
        · exact Or.inr ⟨Nat.succ_lt_succ hlt, by simpa using heq⟩

theorem getD_modifyIdx_self {f : α → α} (d : α) {j : Nat} {l : List α}
    (h : j < l.length) : (modifyIdx f j l).getD j d = f (l.getD j d) := by
  induction l generalizing j with
  | nil => simp at h
  | cons a rest ih =>
    cases j with
    | zero => rfl
    | succ n => simpa [modifyIdx] using ih (Nat.lt_of_succ_lt_succ h)

theorem getD_modifyIdx_ne {f : α → α} (d : α) {i j : Nat} {l : List α}
    (h : i ≠ j) : (modifyIdx f j l).getD i d = l.getD i d := by
  induction l generalizing i j with
  | nil => simp [modifyIdx]
  | cons a rest ih =>
    cases j with
    | zero =>
      cases i with
      | zero => exact absurd rfl h
      | succ m => rfl
    | succ n =>
      cases i with
      | zero => rfl
      | succ m => simpa [modifyIdx] using ih (fun hc => h (by simp [hc]))

theorem findIdxP_lt_length {q : α → Bool} {l : List α} {i : Nat}
    (h : findIdxP q l = some i) : i < l.length := by
  induction l generalizing i with
  | nil => simp [findIdxP] at h
  | cons a rest ih =>
    simp only [findIdxP] at h
    by_cases hq : q a = true
    · rw [if_pos hq] at h
      cases h
      simp
    · rw [if_neg hq] at h
      rcases Option.map_eq_some'.mp h with ⟨i', hi', hfi⟩
      subst hfi
      simpa using Nat.succ_lt_succ (ih hi')

theorem findIdxP_sat {q : α → Bool} (d : α) {l : List α} {i : Nat}
    (h : findIdxP q l = some i) : q (l.getD i d) = true := by
  induction l generalizing i with
  | nil => simp [findIdxP] at h
  | cons a rest ih =>
    simp only [findIdxP] at h
    by_cases hq : q a = true
    · rw [if_pos hq] at h
      cases h
      simpa using hq
    · rw [if_neg hq] at h
      rcases Option.map_eq_some'.mp h with ⟨i', hi', hfi⟩
      subst hfi
      simpa using ih hi'

theorem getD_mem {l : List α} {i : Nat} (d : α) (h : i < l.length) : l.getD i d ∈ l := by
  induction l generalizing i with
  | nil => simp at h
  | cons a rest ih =>
    cases i with
    | zero => simp
    | succ n => simpa using Or.inr (ih (Nat.lt_of_succ_lt_succ h))

theorem findIdxP_modifyIdx {q : α → Bool} {f : α → α} (hf : ∀ a, q (f a) = q a)
    (i : Nat) (l : List α) : findIdxP q (modifyIdx f i l) = findIdxP q l := by
  induction l generalizing i with
  | nil => cases i <;> rfl
  | cons a rest ih =>
    cases i with
    | zero => simp [modifyIdx, findIdxP, hf]
    | succ n => simp [modifyIdx, findIdxP, ih]

/-- A concrete common-scope parameter table used in witnesses. -/
def exCommon : ParamTable :=
  [⟨"cipher", 1, 1, 1, 5⟩,
   ⟨"hmac_check", 1, 1, 0, 1⟩,
   ⟨"kdf_iter", 64007, 64007, 1, 2147483647⟩]

/-- A concrete sqlcipher-scope parameter table used in witnesses. -/
def exSqlCipher : ParamTable :=
  [⟨"kdf_iter", 256000, 256000, 1, 2147483647⟩,
   ⟨"fast_kdf_iter", 2, 2, 1, 2147483647⟩,
   ⟨"legacy", 0, 0, 0, 4⟩]

/-- A concrete registry (entry 0 = common scope) used in witnesses. -/
def exTable : CodecTable :=
  [⟨"global", exCommon⟩,
   ⟨"chacha20", [⟨"kdf_iter", 64007, 64007, 1, 2147483647⟩]⟩,
   ⟨"sqlcipher", exSqlCipher⟩]

/-- A concrete cipher descriptor name table used in witnesses. -/
def exDescs : List String := ["chacha20", "sqlcipher"]

/-- A trivial stand-in for the external SQLCipher legacy configurator. -/
def legacyId : Bool → Int → CodecTable → CodecTable := fun _ _ t => t

/-- C2 counterexample: with `db == NULL`, a non-null global registry, the
resolvable common parameter `kdf_iter` and the in-range value `5000`, the
code returns `-1` and writes nothing, contradicting the claim that the global
cell is written and the post-operation view value (5000) is returned. -/
theorem C2_counterexample :
    sqlite3mc_config_db none (some exTable) (some "kdf_iter") 5000 = (-1, some exTable)
    ∧ (-1 : Int) ≠ 5000 := by decide

/-- C2 amended: `sqlite3mc_config` with `db == NULL` and `newValue ≥ 0`
always returns the sentinel `-1` and performs no write — even when the global
registry exists and the name resolves to an in-range write; the guard at the
top of the function refuses every global write. -/
theorem C2_global_write_refused (glob : Option CodecTable) (pn : Option String)
    (v : Int) (hv : 0 ≤ v) :
    sqlite3mc_config_db none glob pn v = (-1, glob) := by
  cases pn with
  | none => rfl
  | some n =>
    simp [sqlite3mc_config_db, effectiveTable, sqlite3mc_config, hv]

theorem C2_global_write_refused_witness :
    (0 : Int) ≤ 5000
    ∧ sqlite3mc_config_db none (some exTable) (some "kdf_iter") 5000 = (-1, some exTable) :=
  ⟨by decide, C2_global_write_refused (some exTable) (some "kdf_iter") 5000 (by decide)⟩

/-- A connection whose overlay query yields a pointer with a mismatched type
tag. -/
def exBadConn : DbConn := ⟨some ⟨"wrong_tag", some exTable⟩⟩

/-- C5 counterexample: on a connection whose overlay query yields a pointer
with the wrong type tag, a read of `kdf_iter` returns the sentinel `-1` even
though the same read against the global registry (`db == NULL`) returns
`64007`: the call fails instead of falling back to the global registry. -/
theorem C5_counterexample :
    sqlite3mc_config_db (some exBadConn) (some exTable) (some "kdf_iter") (-1) = (-1, none)
    ∧ (sqlite3mc_config_db none (some exTable) (some "kdf_iter") (-1)).1 = 64007 := by decide

/-- C5 amended: a mismatched or missing type tag yields no overlay
(`sqlite3mcGetCodecParams` returns `NULL`), and a `config`/`configCipher`
call on that connection then fails with the sentinel `-1` without consulting
the global registry; the global registry is used only when `db == NULL`. -/
theorem C5_no_fallback (conn : DbConn) (glob : Option CodecTable)
    (pn : Option String) (v : Int)
    (h : sqlite3mcGetCodecParams conn = none) :
    (∀ tag ptr, tag ≠ "sqlite3mc_codec_params" →
        sqlite3mcGetCodecParams ⟨some ⟨tag, ptr⟩⟩ = none)
    ∧ sqlite3mc_config_db (some conn) glob pn v = (-1, none)
    ∧ (∀ lc cn, (sqlite3mc_config_cipher_db lc (some conn) glob cn pn v).value = -1
        ∧ (sqlite3mc_config_cipher_db lc (some conn) glob cn pn v).table = none) := by
  refine ⟨?_, ?_, ?_⟩
  · intro tag ptr htag
    simp [sqlite3mcGetCodecParams, sqlite3_value_pointer, htag]
  · simp only [sqlite3mc_config_db, effectiveTable, h]
    cases pn with
    | none => rfl
    | some n =>
      simp [sqlite3mc_config]
  · intro lc cn
    simp only [sqlite3mc_config_cipher_db, effectiveTable, h]
    by_cases hn : cn.isNone || pn.isNone
    · constructor <;> simp [sqlite3mc_config_cipher, hn]
    · constructor <;> simp [sqlite3mc_config_cipher, hn]

theorem C5_no_fallback_witness :
    sqlite3mcGetCodecParams exBadConn = none
    ∧ sqlite3mc_config_db (some exBadConn) (some exTable) (some "kdf_iter") 5000 = (-1, none) :=
  ⟨by decide,
   (C5_no_fallback exBadConn (some exTable) (some "kdf_iter") 5000 (by decide)).2.1⟩

/-- C4 counterexample: on the sqlcipher cell `fast_kdf_iter` (current 2,
range `[1..2147483647]`), the call with `v = -5` returns the *current value 2*,
not the claimed `-1` (and logs an out-of-range warning); the call with
`v = 0` likewise returns 2, not `-1`, logging the warning naming the range. -/
theorem C4_counterexample :
    ((sqlite3mc_config_cipher legacyId true (some exTable)
        (some "sqlcipher") (some "fast_kdf_iter") (-5)).value = 2
      ∧ (sqlite3mc_config_cipher legacyId true (some exTable)
        (some "sqlcipher") (some "fast_kdf_iter") (-5)).value ≠ -1)
    ∧ sqlite3mc_config_cipher legacyId true (some exTable)
        (some "sqlcipher") (some "fast_kdf_iter") 0
      = ⟨2, some exTable,
          [.valueOutOfRange 0 "fast_kdf_iter" "sqlcipher" 1 2147483647]⟩ := by decide

/-- C4 amended: for a resolvable cipher-scope parameter (unprefixed name, not
the sqlcipher legacy special case), a `v` that is negative or outside the
cell's `[min, max]` performs no write, logs a warning naming the parameter,
the cipher and the range, and returns the *unchanged current value* of the
cell (not `-1`). -/
theorem C4_out_of_range (lc : Bool → Int → CodecTable → CodecTable)
    (cp : CodecTable) (cName pName : String) (v : Int) (j i : Nat)
    (hstrip : stripPfx pName = (⟨false, false, false⟩, pName))
    (hleg : (striEq cName "sqlcipher" && striEq pName "legacy") = false)
    (hj : findIdxP (fun e => striEq cName e.m_name) cp = some j)
    (hi : findIdxP (fun p => striEq pName p.m_name) ((cp.getD j emptyEntry).m_params) = some i)
    (hout : v < 0 ∨ v < ((cp.getD j emptyEntry).m_params.getD i emptyCell).m_minValue
            ∨ ((cp.getD j emptyEntry).m_params.getD i emptyCell).m_maxValue < v) :
    sqlite3mc_config_cipher lc true (some cp) (some cName) (some pName) v
      = ⟨((cp.getD j emptyEntry).m_params.getD i emptyCell).m_value, some cp,
         [.valueOutOfRange v pName cName
            ((cp.getD j emptyEntry).m_params.getD i emptyCell).m_minValue
            ((cp.getD j emptyEntry).m_params.getD i emptyCell).m_maxValue]⟩ := by
  have hP : ¬(striEq cName "sqlcipher" = true ∧ striEq pName "legacy" = true) := by
    intro hc
    rw [hc.1, hc.2] at hleg
    simp at hleg
  simp only [List.getD_eq_getElem?_getD] at hout hi
  simp [sqlite3mc_config_cipher, hstrip, hj, hi, hP, viewValue]
  omega

/-- `exTable` after the adapter write of 5000 through `min:kdf_iter`. -/
def exTableMinWritten : CodecTable :=
  [⟨"global", [⟨"cipher", 1, 1, 1, 5⟩, ⟨"hmac_check", 1, 1, 0, 1⟩,
               ⟨"kdf_iter", 5000, 64007, 1, 2147483647⟩]⟩,
   ⟨"chacha20", [⟨"kdf_iter", 64007, 64007, 1, 2147483647⟩]⟩,
   ⟨"sqlcipher", exSqlCipher⟩]

/-- C1 counterexample: the 2-argument adapter form
`sqlite3mc_config('min:kdf_iter', 5000)` has no min/max write guard: it
writes `current := 5000` on the resolved cell and returns 5000, so a `min:`
prefixed call does mutate a cell field. -/
theorem C1_counterexample :
    sqlite3mcConfigParams legacyId exDescs exTable [.text "min:kdf_iter", .int 5000]
      = (.int 5000, exTableMinWritten)
    ∧ exTableMinWritten ≠ exTable := by decide

theorem config_minmax_no_write (dbp : Bool) (cpOpt : Option CodecTable)
    (name : String) (v : Int)
    (h : ((stripPfx name).1.hasMin || (stripPfx name).1.hasMax) = true) :
    (sqlite3mc_config dbp cpOpt (some name) v).2 = cpOpt := by
  simp only [sqlite3mc_config]
  split
  · rfl
  · cases cpOpt with
    | none => rfl
    | some cp =>
      cases hf : findIdxP (fun p => striEq (stripPfx name).2 p.m_name) (commonTable cp) with
      | none => simp [hf]
      | some i =>
        simp only [hf]
        rw [if_neg]
        rcases Bool.or_eq_true_iff.mp h with hm | hm <;> simp [hm]

theorem config_cipher_minmax_no_write (lc : Bool → Int → CodecTable → CodecTable)
    (dbp : Bool) (cpOpt : Option CodecTable) (cn : Option String)
    (name : String) (v : Int)
    (h : ((stripPfx name).1.hasMin || (stripPfx name).1.hasMax) = true) :
    (sqlite3mc_config_cipher lc dbp cpOpt cn (some name) v).table = cpOpt := by
  rcases Bool.or_eq_true_iff.mp h with hm | hm <;>
  · simp only [sqlite3mc_config_cipher, Option.getD_some]
    split
    · rfl
    · split
      · rfl
      · cases cpOpt with
        | none => rfl
        | some cp =>
          cases hj : findIdxP (fun e => striEq (cn.getD "") e.m_name) cp with
          | none => simp [hj]
          | some j =>
            simp only [hj]
            simp only [hm, Bool.and_false, Bool.false_and, Bool.and_true, Bool.not_false,
              Bool.not_true, Bool.false_or, Bool.or_false, if_false]
            cases hi : findIdxP (fun p => striEq (stripPfx name).2 p.m_name)
                ((cp.getD j emptyEntry).m_params) with
            | none =>
              simp only [List.getD_eq_getElem?_getD] at hi
              simp [hi, hm]
            | some i =>
              simp only [List.getD_eq_getElem?_getD] at hi
              simp [hi, hm]

theorem adapter_one_arg_no_write (lc : Bool → Int → CodecTable → CodecTable)
    (descs : List String) (cp : CodecTable) (a : SqlValue) :
    (sqlite3mcConfigParams lc descs cp [a]).2 = cp := by
  simp only [sqlite3mcConfigParams, List.length_singleton]
  repeat' split
  all_goals first | rfl | simp_all

theorem adapter_two_arg_scope_no_write (lc : Bool → Int → CodecTable → CodecTable)
    (descs : List String) (cp : CodecTable) (a b : SqlValue)
    (h : findIdxP (fun p => striEq (stripPfx (sqlText a)).2 p.m_name) (commonTable cp) = none) :
    (sqlite3mcConfigParams lc descs cp [a, b]).2 = cp := by
  simp only [sqlite3mcConfigParams, List.length_cons, List.length_nil,
    List.getD_cons_zero, List.getD_cons_succ, List.getD_nil, h]
  repeat' split
  any_goals first | rfl | simp_all
  all_goals
    cases b with
    | null => rfl
    | int i => rfl
    | text s =>
      simp only [adapterCipherPath]
      repeat' split
      all_goals simp_all

theorem adapter_three_arg_minmax_no_write (lc : Bool → Int → CodecTable → CodecTable)
    (descs : List String) (cp : CodecTable) (a b c : SqlValue)
    (h : ((stripPfx (sqlText b)).1.hasMin || (stripPfx (sqlText b)).1.hasMax) = true) :
    (sqlite3mcConfigParams lc descs cp [a, b, c]).2 = cp := by
  rcases Bool.or_eq_true_iff.mp h with hm | hm <;>
  · simp only [sqlite3mcConfigParams, List.length_cons, List.length_nil,
      List.getD_cons_zero, List.getD_cons_succ, List.getD_nil]
    repeat' split
    any_goals first | rfl | simp_all
    all_goals
      cases b with
      | null => rfl
      | int i => rfl
      | text s =>
        simp only [sqlText] at hm
        simp only [adapterCipherPath, hm]
        repeat' split
        all_goals simp_all

/-- C1 amended: `min:`/`max:` prefixed calls never write through
`sqlite3mc_config`, `sqlite3mc_config_cipher`, the 1-argument adapter form,
the 2-argument adapter form when the first argument is a cipher scope (not a
common parameter), and the 3-argument adapter form — but NOT through the
2-argument adapter form with a common parameter name, which ignores the
min/max flags when writing (see the counterexample). -/
theorem C1_minmax_frame :
    (∀ dbp cpOpt name v, ((stripPfx name).1.hasMin || (stripPfx name).1.hasMax) = true →
        (sqlite3mc_config dbp cpOpt (some name) v).2 = cpOpt)
    ∧ (∀ lc dbp cpOpt cn name v,
        ((stripPfx name).1.hasMin || (stripPfx name).1.hasMax) = true →
        (sqlite3mc_config_cipher lc dbp cpOpt cn (some name) v).table = cpOpt)
    ∧ (∀ lc descs cp a, (sqlite3mcConfigParams lc descs cp [a]).2 = cp)
    ∧ (∀ lc descs cp a b,
        findIdxP (fun p => striEq (stripPfx (sqlText a)).2 p.m_name) (commonTable cp) = none →
        (sqlite3mcConfigParams lc descs cp [a, b]).2 = cp)
    ∧ (∀ lc descs cp a b c,
        ((stripPfx (sqlText b)).1.hasMin || (stripPfx (sqlText b)).1.hasMax) = true →
        (sqlite3mcConfigParams lc descs cp [a, b, c]).2 = cp) :=
  ⟨config_minmax_no_write, config_cipher_minmax_no_write, adapter_one_arg_no_write,
   adapter_two_arg_scope_no_write, adapter_three_arg_minmax_no_write⟩

theorem C1_minmax_frame_witness :
    (sqlite3mc_config true (some exTable) (some "max:kdf_iter") 5000).2 = some exTable
    ∧ (sqlite3mc_config_cipher legacyId true (some exTable)
        (some "sqlcipher") (some "min:kdf_iter") 5000).table = some exTable
    ∧ (sqlite3mcConfigParams legacyId exDescs exTable [.text "min:kdf_iter"]).2 = exTable
    ∧ (sqlite3mcConfigParams legacyId exDescs exTable
        [.text "sqlcipher", .text "min:kdf_iter"]).2 = exTable
    ∧ (sqlite3mcConfigParams legacyId exDescs exTable
        [.text "sqlcipher", .text "min:kdf_iter", .int 5000]).2 = exTable :=
  ⟨C1_minmax_frame.1 true (some exTable) "max:kdf_iter" 5000 (by decide),
   C1_minmax_frame.2.1 legacyId true (some exTable) (some "sqlcipher") "min:kdf_iter" 5000
     (by decide),
   C1_minmax_frame.2.2.1 legacyId exDescs exTable (.text "min:kdf_iter"),
   C1_minmax_frame.2.2.2.1 legacyId exDescs exTable (.text "sqlcipher") (.text "min:kdf_iter")
     (by decide),
   C1_minmax_frame.2.2.2.2 legacyId exDescs exTable (.text "sqlcipher") (.text "min:kdf_iter")
     (.int 5000) (by decide)⟩

theorem C4_out_of_range_witness :
    sqlite3mc_config_cipher legacyId true (some exTable)
        (some "sqlcipher") (some "fast_kdf_iter") 0
      = ⟨2, some exTable,
          [.valueOutOfRange 0 "fast_kdf_iter" "sqlcipher" 1 2147483647]⟩ := by
  have h := C4_out_of_range legacyId exTable "sqlcipher" "fast_kdf_iter" 0 2 1
    (by decide) (by decide) (by decide) (by decide) (by decide)
  simpa [exTable, exSqlCipher] using h

theorem commonTable_nil_lookup {N : String} {i : Nat}
    (hi : findIdxP (fun p => striEq N p.m_name) (commonTable []) = some i) : False := by
  simp [commonTable, emptyEntry, findIdxP] at hi

theorem findIdxP_modifyIdx_name (N : String) (f : CipherParams → CipherParams)
    (hf : ∀ p, (f p).m_name = p.m_name) (i : Nat) (l : ParamTable) :
    findIdxP (fun p => striEq N p.m_name) (modifyIdx f i l)
      = findIdxP (fun p => striEq N p.m_name) l :=
  findIdxP_modifyIdx (fun a => by rw [hf]) i l

/-- C7: for a common-scope cell other than `hmac_check`, writing an in-range
`v ≥ 0` through the `default:` view succeeds returning `v`, and reading back
through the `default:` view and through the no-prefix view both yield `v`
(current is updated as a side effect of the default write). -/
theorem C7_default_write_read (cp : CodecTable) (N : String) (v : Int) (i : Nat)
    (hstripD : stripPfx ("default:" ++ N) = (⟨true, false, false⟩, N))
    (hstripN : stripPfx N = (⟨false, false, false⟩, N))
    (hname : striEq N "hmac_check" = false)
    (hi : findIdxP (fun p => striEq N p.m_name) (commonTable cp) = some i)
    (hv0 : 0 ≤ v)
    (hlo : ((commonTable cp).getD i emptyCell).m_minValue ≤ v)
    (hhi : v ≤ ((commonTable cp).getD i emptyCell).m_maxValue) :
    ∃ cp', sqlite3mc_config true (some cp) (some ("default:" ++ N)) v = (v, some cp')
      ∧ (sqlite3mc_config true (some cp') (some ("default:" ++ N)) (-1)).1 = v
      ∧ (sqlite3mc_config true (some cp') (some N) (-1)).1 = v := by
  cases cp with
  | nil => exact absurd hi commonTable_nil_lookup
  | cons e rest =>
    have hcomm : commonTable (e :: rest) = e.m_params := rfl
    rw [hcomm] at hi hlo hhi
    have hilen : i < e.m_params.length := findIdxP_lt_length hi
    refine ⟨setCommonTable (e :: rest)
      (modifyIdx (fun p => { p with m_default := v, m_value := v }) i e.m_params),
      ?_, ?_, ?_⟩
    · simp only [List.getD_eq_getElem?_getD] at hlo hhi
      simp [sqlite3mc_config, hstripD, hcomm, hi, hname, hv0, hlo, hhi]
      all_goals rfl
    · have hfind2 : findIdxP (fun p => striEq N p.m_name)
          (modifyIdx (fun p => { p with m_default := v, m_value := v }) i e.m_params)
          = some i := by
        rw [findIdxP_modifyIdx_name N (fun p => { p with m_default := v, m_value := v })
          (fun p => rfl), hi]
      have hget2 : (modifyIdx (fun p => { p with m_default := v, m_value := v })
            i e.m_params).getD i emptyCell
          = { e.m_params.getD i emptyCell with m_default := v, m_value := v } :=
        getD_modifyIdx_self emptyCell hilen
      simp only [List.getD_eq_getElem?_getD] at hget2
      simp [sqlite3mc_config, hstripD, setCommonTable, modifyIdx, commonTable,
        List.headD, hfind2, viewValue, hget2]
    · have hfind2 : findIdxP (fun p => striEq N p.m_name)
          (modifyIdx (fun p => { p with m_default := v, m_value := v }) i e.m_params)
          = some i := by
        rw [findIdxP_modifyIdx_name N (fun p => { p with m_default := v, m_value := v })
          (fun p => rfl), hi]
      have hget2 : (modifyIdx (fun p => { p with m_default := v, m_value := v })
            i e.m_params).getD i emptyCell
          = { e.m_params.getD i emptyCell with m_default := v, m_value := v } :=
        getD_modifyIdx_self emptyCell hilen
      simp only [List.getD_eq_getElem?_getD] at hget2
      simp [sqlite3mc_config, hstripN, setCommonTable, modifyIdx, commonTable,
        List.headD, hfind2, viewValue, hget2]

theorem C7_default_write_read_witness :
    ∃ cp', sqlite3mc_config true (some exTable) (some ("default:" ++ "kdf_iter")) 77
        = (77, some cp')
      ∧ (sqlite3mc_config true (some cp') (some ("default:" ++ "kdf_iter")) (-1)).1 = 77
      ∧ (sqlite3mc_config true (some cp') (some "kdf_iter") (-1)).1 = 77 :=
  C7_default_write_read exTable "kdf_iter" 77 2 (by decide) (by decide) (by decide)
    (by decide) (by decide) (by decide) (by decide)

/-- C8: for the common-scope `hmac_check` cell, writing an in-range `v ≥ 0`
through the `default:` view — via `sqlite3mc_config` or the 2-argument
adapter form — leaves the cell's `default` field unchanged while updating
its `current` field to `v`. -/
theorem C8_hmac_default_pinned (lc : Bool → Int → CodecTable → CodecTable)
    (descs : List String) (cp : CodecTable) (v : Int) (i : Nat)
    (hi : findIdxP (fun p => striEq "hmac_check" p.m_name) (commonTable cp) = some i)
    (hv0 : 0 ≤ v)
    (hlo : ((commonTable cp).getD i emptyCell).m_minValue ≤ v)
    (hhi : v ≤ ((commonTable cp).getD i emptyCell).m_maxValue) :
    (∃ cp', sqlite3mc_config true (some cp) (some "default:hmac_check") v = (v, some cp')
       ∧ ((commonTable cp').getD i emptyCell).m_default
           = ((commonTable cp).getD i emptyCell).m_default
       ∧ ((commonTable cp').getD i emptyCell).m_value = v)
    ∧ (∃ cp'', sqlite3mcConfigParams lc descs cp [.text "default:hmac_check", .int v]
           = (.int v, cp'')
       ∧ ((commonTable cp'').getD i emptyCell).m_default
           = ((commonTable cp).getD i emptyCell).m_default
       ∧ ((commonTable cp'').getD i emptyCell).m_value = v) := by
  cases cp with
  | nil => exact absurd hi commonTable_nil_lookup
  | cons e rest =>
    have hcomm : commonTable (e :: rest) = e.m_params := rfl
    rw [hcomm] at hi hlo hhi
    have hilen : i < e.m_params.length := findIdxP_lt_length hi
    have hstrip : stripPfx "default:hmac_check"
        = (⟨true, false, false⟩, "hmac_check") := by decide
    have hself : striEq "hmac_check" "hmac_check" = true := by decide
    have hciph : striEq "hmac_check" "cipher" = false := by decide
    have hget2 : (modifyIdx (cellWrite false v) i e.m_params).getD i emptyCell
        = cellWrite false v (e.m_params.getD i emptyCell) :=
      getD_modifyIdx_self emptyCell hilen
    simp only [List.getD_eq_getElem?_getD] at hlo hhi hget2
    constructor
    · refine ⟨setCommonTable (e :: rest)
        (modifyIdx (cellWrite false v) i e.m_params), ?_, ?_, ?_⟩
      · simp [sqlite3mc_config, hstrip, hcomm, hi, hself, hv0, hlo, hhi]
      · simp [setCommonTable, modifyIdx, commonTable, List.headD, hget2]
      · simp [setCommonTable, modifyIdx, commonTable, List.headD, hget2]
    · refine ⟨setCommonTable (e :: rest)
        (modifyIdx (cellWrite false v) i e.m_params), ?_, ?_, ?_⟩
      · simp [sqlite3mcConfigParams, adapterWriteCommon, hstrip, hcomm, hi, hself, hciph,
          sqlIsNull, sqlText, sqlInt, hlo, hhi]
      · simp [setCommonTable, modifyIdx, commonTable, List.headD, hget2]
      · simp [setCommonTable, modifyIdx, commonTable, List.headD, hget2]

theorem C8_hmac_default_pinned_witness :
    (∃ cp', sqlite3mc_config true (some exTable) (some "default:hmac_check") 0 = (0, some cp')
       ∧ ((commonTable cp').getD 1 emptyCell).m_default
           = ((commonTable exTable).getD 1 emptyCell).m_default
       ∧ ((commonTable cp').getD 1 emptyCell).m_value = 0)
    ∧ (∃ cp'', sqlite3mcConfigParams legacyId exDescs exTable
           [.text "default:hmac_check", .int 0] = (.int 0, cp'')
       ∧ ((commonTable cp'').getD 1 emptyCell).m_default
           = ((commonTable exTable).getD 1 emptyCell).m_default
       ∧ ((commonTable cp'').getD 1 emptyCell).m_value = 0) :=
  C8_hmac_default_pinned legacyId exDescs exTable 0 1 (by decide) (by decide)
    (by decide) (by decide)

/-- C10: prefixes strip in the fixed order `default:`, `min:`, `max:`, each at
most once: `default:min:N` resolves to cell `N` with both flags set, reads the
default view (default takes precedence over min in view selection) and never
writes, even for in-range `v ≥ 0`; while `min:default:N` strips only `min:`
and then fails to resolve, returning the sentinel `-1` with no write. -/
theorem C10_prefix_order (cp : CodecTable) (N : String) (v : Int) (i : Nat)
    (h1 : stripPfx ("default:min:" ++ N) = (⟨true, true, false⟩, N))
    (h2 : stripPfx ("min:default:" ++ N) = (⟨false, true, false⟩, "default:" ++ N))
    (hi : findIdxP (fun p => striEq N p.m_name) (commonTable cp) = some i)
    (hnone : findIdxP (fun p => striEq ("default:" ++ N) p.m_name) (commonTable cp) = none)
    (hv0 : 0 ≤ v) :
    sqlite3mc_config true (some cp) (some ("default:min:" ++ N)) v
      = (((commonTable cp).getD i emptyCell).m_default, some cp)
    ∧ sqlite3mc_config true (some cp) (some ("min:default:" ++ N)) v = (-1, some cp) := by
  constructor
  · simp [sqlite3mc_config, h1, hi, viewValue]
  · simp [sqlite3mc_config, h2, hnone]

theorem C10_prefix_order_witness :
    sqlite3mc_config true (some exTable) (some ("default:min:" ++ "kdf_iter")) 5000
      = (((commonTable exTable).getD 2 emptyCell).m_default, some exTable)
    ∧ sqlite3mc_config true (some exTable) (some ("min:default:" ++ "kdf_iter")) 5000
      = (-1, some exTable) :=
  C10_prefix_order exTable "kdf_iter" 5000 2 (by decide) (by decide) (by decide)
    (by decide) (by decide)

theorem pairTable_length (f g : Nat → Nat) :
    ∀ (c start : Nat), (pairTable f g start c).length = 2 * c + 1 := by
  intro c
  induction c with
  | zero => intro start; rfl
  | succ n ih =>
    intro start
    simp [pairTable, ih (start + 1)]
    omega

theorem pairTable_getD_even (f g : Nat → Nat) :
    ∀ (c start k : Nat), k < c → (pairTable f g start c).getD (2 * k) 0 = f (start + k) := by
  intro c
  induction c with
  | zero => intro start k hk; omega
  | succ n ih =>
    intro start k hk
    cases k with
    | zero => simp [pairTable]
    | succ m =>
      have h2 : 2 * (m + 1) = 2 * m + 1 + 1 := by omega
      rw [h2]
      simp only [pairTable, List.getD_cons_succ]
      rw [ih (start + 1) m (by omega)]
      congr 1
      omega

theorem pairTable_getD_odd (f g : Nat → Nat) :
    ∀ (c start k : Nat), k < c →
      (pairTable f g start c).getD (2 * k + 1) 0 = g (start + k) := by
  intro c
  induction c with
  | zero => intro start k hk; omega
  | succ n ih =>
    intro start k hk
    cases k with
    | zero => simp [pairTable]
    | succ m =>
      have h2 : 2 * (m + 1) + 1 = 2 * m + 1 + 1 + 1 := by omega
      rw [h2]
      simp only [pairTable, List.getD_cons_succ]
      rw [ih (start + 1) m (by omega)]
      congr 1
      omega

theorem pairTable_getD_last (f g : Nat → Nat) :
    ∀ (c start : Nat), (pairTable f g start c).getD (2 * c) 0 = 0 := by
  intro c
  induction c with
  | zero => intro start; rfl
  | succ n ih =>
    intro start
    have h2 : 2 * (n + 1) = 2 * n + 1 + 1 := by omega
    rw [h2]
    simp only [pairTable, List.getD_cons_succ]
    exact ih (start + 1)

theorem range_map_getD (s : List Nat) (n : Nat) (hs : s.length = n) :
    (List.range n).map (fun j => s.getD j 0) = s := by
  apply List.ext_getElem
  · simp [hs]
  · intro i h1 h2
    simp only [List.getElem_map, List.getElem_range, List.getD_eq_getElem?_getD]
    rw [List.getElem?_eq_getElem h2]
    rfl

/-- C9: on a connection with an attached codec that is encrypted, has a
write-side cipher and a 16-byte salt, `codecData(db, schema, "cipher_salt")`
returns the 33-byte buffer whose bytes `2j` / `2j+1` are the `hexdigits`
digits of salt byte `j` (high nibble first) with a trailing zero byte, and
the `raw:` prefix returns the 16 raw salt bytes plus a trailing zero byte
(17 bytes); with no codec, a non-encrypted attachment, or no write-side
cipher the result is nothing. -/
theorem C9_codec_salt (hexdigits : List Nat) (findDbName : String → Int)
    (getCodec : Int → Option Codec) (zn : Option String) (iDb : Int) (s : List Nat)
    (hzn : (match zn with | some z => findDbName z | none => 0) = iDb)
    (hdb : 0 ≤ iDb)
    (hc : getCodec iDb = some ⟨true, true, some s⟩)
    (hs : s.length = 16) :
    (sqlite3mc_codec_data hexdigits findDbName getCodec true zn (some "cipher_salt")
        = some (hexSaltBuffer hexdigits s)
      ∧ (hexSaltBuffer hexdigits s).length = 33
      ∧ (∀ k, k < 16 →
          (hexSaltBuffer hexdigits s).getD (2 * k) 0
            = hexdigits.getD (((s.getD k 0) >>> 4) &&& 15) 0
          ∧ (hexSaltBuffer hexdigits s).getD (2 * k + 1) 0
            = hexdigits.getD ((s.getD k 0) &&& 15) 0)
      ∧ (hexSaltBuffer hexdigits s).getD 32 0 = 0)
    ∧ (sqlite3mc_codec_data hexdigits findDbName getCodec true zn (some "raw:cipher_salt")
        = some (s ++ [0])
      ∧ (s ++ [0]).length = 17)
    ∧ (∀ gc2 : Int → Option Codec, gc2 iDb = none →
        sqlite3mc_codec_data hexdigits findDbName gc2 true zn (some "cipher_salt") = none)
    ∧ (∀ (gc3 : Int → Option Codec) (c : Codec), gc3 iDb = some c →
        c.encrypted = false →
        sqlite3mc_codec_data hexdigits findDbName gc3 true zn (some "cipher_salt") = none)
    ∧ (∀ (gc4 : Int → Option Codec) (c : Codec), gc4 iDb = some c →
        c.writeCipher = false →
        sqlite3mc_codec_data hexdigits findDbName gc4 true zn (some "cipher_salt") = none) := by
  have hneg : hasPfxCI "cipher_salt" "raw:" = false := by decide
  have hpos : hasPfxCI "raw:cipher_salt" "raw:" = true := by decide
  have hdrop : dropChars "raw:cipher_salt" 4 = "cipher_salt" := by decide
  have hself : striEq "cipher_salt" "cipher_salt" = true := by decide
  refine ⟨⟨?_, ?_, ?_, ?_⟩, ⟨?_, ?_⟩, ?_, ?_, ?_⟩
  · simp [sqlite3mc_codec_data, hneg, hself, hzn, hdb, hc]
  · simpa [hexSaltBuffer] using pairTable_length _ _ 16 0
  · intro k hk
    constructor
    · simpa [hexSaltBuffer] using pairTable_getD_even _ _ 16 0 k hk
    · simpa [hexSaltBuffer] using pairTable_getD_odd _ _ 16 0 k hk
  · have h32 : (32 : Nat) = 2 * 16 := by omega
    rw [h32]
    simpa [hexSaltBuffer] using pairTable_getD_last _ _ 16 0
  · have hraw : rawSaltBuffer s = s ++ [0] := by
      have hr := range_map_getD s 16 hs
      simp only [List.getD_eq_getElem?_getD] at hr
      simp [rawSaltBuffer, hr]
    simp [sqlite3mc_codec_data, hpos, hdrop, hself, hzn, hdb, hc, hraw]
  · simp [hs]
  · intro gc2 h2
    simp [sqlite3mc_codec_data, hneg, hself, hzn, hdb, h2]
  · intro gc3 c h3 henc
    simp [sqlite3mc_codec_data, hneg, hself, hzn, hdb, h3, henc]
  · intro gc4 c h4 hwc
    simp [sqlite3mc_codec_data, hneg, hself, hzn, hdb, h4, hwc]

theorem C9_codec_salt_witness :
    ((sqlite3mc_codec_data [104, 101, 120, 100, 105, 103, 105, 116, 115, 97, 98, 99, 100, 101, 102, 103]
        (fun _ => 0) (fun _ => some ⟨true, true,
          some [0, 17, 34, 51, 68, 85, 102, 119, 136, 153, 170, 187, 204, 221, 238, 255]⟩)
        true (some "main") (some "cipher_salt")).isSome
      ∧ (sqlite3mc_codec_data [104, 101, 120, 100, 105, 103, 105, 116, 115, 97, 98, 99, 100, 101, 102, 103]
        (fun _ => 0) (fun _ => some ⟨true, true,
          some [0, 17, 34, 51, 68, 85, 102, 119, 136, 153, 170, 187, 204, 221, 238, 255]⟩)
        true (some "main") (some "raw:cipher_salt"))
        = some ([0, 17, 34, 51, 68, 85, 102, 119, 136, 153, 170, 187, 204, 221, 238, 255] ++ [0])) := by
  have h := C9_codec_salt
    [104, 101, 120, 100, 105, 103, 105, 116, 115, 97, 98, 99, 100, 101, 102, 103]
    (fun _ => 0)
    (fun _ => some ⟨true, true,
      some [0, 17, 34, 51, 68, 85, 102, 119, 136, 153, 170, 187, 204, 221, 238, 255]⟩)
    (some "main") 0
    [0, 17, 34, 51, 68, 85, 102, 119, 136, 153, 170, 187, 204, 221, 238, 255]
    (by decide) (by decide) (by decide) (by decide)
  exact ⟨by rw [h.1.1]; rfl, h.2.1.1⟩

theorem headD_modifyIdx_ne (f : α → α) {j : Nat} (hj : j ≠ 0) (l : List α) (d : α) :
    (modifyIdx f j l).headD d = l.headD d := by
  cases l with
  | nil => cases j <;> rfl
  | cons a rest =>
    cases j with
    | zero => exact absurd rfl hj
    | succ n => rfl

theorem striEq_trans {a b c : String} (h1 : striEq a b = true) (h2 : striEq c b = true) :
    striEq a c = true := by
  simp only [striEq, beq_iff_eq] at h1 h2 ⊢
  rw [h1, h2]

/-- A `sqlite3mc_config` call whose (stripped) name does not match cell `M`
leaves the head scope name, the position of `M`'s cell and the cell itself
untouched. -/
theorem config_preserves_cell (t : CodecTable) (name0 M : String) (v : Int) (ih : Nat)
    (hih : findIdxP (fun p => striEq M p.m_name) (commonTable t) = some ih)
    (hdiff : striEq (stripPfx name0).2 M = false) :
    ∃ t', (sqlite3mc_config true (some t) (some name0) v).2 = some t'
      ∧ (t'.headD emptyEntry).m_name = (t.headD emptyEntry).m_name
      ∧ findIdxP (fun p => striEq M p.m_name) (commonTable t') = some ih
      ∧ (commonTable t').getD ih emptyCell = (commonTable t).getD ih emptyCell := by
  cases t with
  | nil => exact absurd hih commonTable_nil_lookup
  | cons e rest =>
    have hcomm : commonTable (e :: rest) = e.m_params := rfl
    rw [hcomm] at hih
    cases hf : findIdxP (fun p => striEq (stripPfx name0).2 p.m_name) e.m_params with
    | none =>
      refine ⟨e :: rest, ?_, rfl, hih, rfl⟩
      simp [sqlite3mc_config, hcomm, hf]
    | some iw =>
      have hne : ih ≠ iw := by
        intro heq
        subst heq
        have h1 := findIdxP_sat emptyCell hf
        have h2 := findIdxP_sat emptyCell hih
        exact absurd (striEq_trans h1 h2) (by simp [hdiff])
      by_cases hw : (!(stripPfx name0).1.hasMin && !(stripPfx name0).1.hasMax
          && decide (0 ≤ v)
          && decide ((e.m_params.getD iw emptyCell).m_minValue ≤ v)
          && decide (v ≤ (e.m_params.getD iw emptyCell).m_maxValue)) = true
      · refine ⟨setCommonTable (e :: rest)
          (modifyIdx (cellWrite ((stripPfx name0).1.hasDefault
            && !striEq (stripPfx name0).2 "hmac_check") v) iw e.m_params), ?_, rfl, ?_, ?_⟩
        · simp only [List.getD_eq_getElem?_getD] at hw
          simp [sqlite3mc_config, hcomm, hf, hw]
          all_goals rfl
        · show findIdxP (fun p => striEq M p.m_name) (modifyIdx _ iw e.m_params) = some ih
          rw [findIdxP_modifyIdx_name M _ (cellWrite_m_name _ v), hih]
        · show (modifyIdx _ iw e.m_params).getD ih emptyCell = e.m_params.getD ih emptyCell
          exact getD_modifyIdx_ne emptyCell hne
      · refine ⟨e :: rest, ?_, rfl, hih, rfl⟩
        simp only [List.getD_eq_getElem?_getD] at hw
        simp [sqlite3mc_config, hcomm, hf, hw]

/-- A `sqlite3mc_config` write of in-range `v ≥ 0` through an unprefixed name
`M` resolving at index `ih` sets that cell's current value to `v` and keeps
the head scope name. -/
theorem config_writes_named (t : CodecTable) (M : String) (v : Int) (ih : Nat)
    (hstrip : stripPfx M = (⟨false, false, false⟩, M))
    (hih : findIdxP (fun p => striEq M p.m_name) (commonTable t) = some ih)
    (hv0 : 0 ≤ v)
    (hlo : ((commonTable t).getD ih emptyCell).m_minValue ≤ v)
    (hhi : v ≤ ((commonTable t).getD ih emptyCell).m_maxValue) :
    ∃ t', (sqlite3mc_config true (some t) (some M) v).2 = some t'
      ∧ (t'.headD emptyEntry).m_name = (t.headD emptyEntry).m_name
      ∧ ((commonTable t').getD ih emptyCell).m_value = v := by
  cases t with
  | nil => exact absurd hih commonTable_nil_lookup
  | cons e rest =>
    have hcomm : commonTable (e :: rest) = e.m_params := rfl
    rw [hcomm] at hih hlo hhi
    have hilen : ih < e.m_params.length := findIdxP_lt_length hih
    refine ⟨setCommonTable (e :: rest)
      (modifyIdx (cellWrite (false && !striEq M "hmac_check") v) ih e.m_params),
      ?_, rfl, ?_⟩
    · simp only [List.getD_eq_getElem?_getD] at hlo hhi
      simp [sqlite3mc_config, hstrip, hcomm, hih, hv0, hlo, hhi]
      all_goals rfl
    · show ((modifyIdx _ ih e.m_params).getD ih emptyCell).m_value = v
      rw [getD_modifyIdx_self emptyCell hilen, cellWrite_m_value]

/-- A `sqlite3mc_config_cipher` call whose cipher name matches neither
`"sqlcipher"` nor the head (common) scope leaves the head entry untouched. -/
theorem config_cipher_head (lc : Bool → Int → CodecTable → CodecTable)
    (t : CodecTable) (cn pn : String) (v : Int)
    (hcs : striEq cn "sqlcipher" = false)
    (hnh : striEq cn ((t.headD emptyEntry).m_name) = false) :
    ∃ t', (sqlite3mc_config_cipher lc true (some t) (some cn) (some pn) v).table = some t'
      ∧ t'.headD emptyEntry = t.headD emptyEntry := by
  cases hj : findIdxP (fun e => striEq cn e.m_name) t with
  | none => exact ⟨t, by simp [sqlite3mc_config_cipher, hj], rfl⟩
  | some j =>
    have hj0 : j ≠ 0 := by
      intro h0
      subst h0
      have hq := findIdxP_sat emptyEntry hj
      cases t with
      | nil => simp [findIdxP] at hj
      | cons e rest =>
        rw [show ((e :: rest).getD 0 emptyEntry) = e from rfl] at hq
        rw [show ((e :: rest).headD emptyEntry) = e from rfl] at hnh
        rw [hq] at hnh
        exact Bool.true_eq_false.mp hnh
    simp only [sqlite3mc_config_cipher, Option.isNone_some, Bool.or_self, Bool.not_true,
      Bool.false_and, Bool.false_eq_true, if_false, Option.getD_some, hj, hcs,
      Bool.and_false, Bool.true_and, Bool.false_or]
    split
    · exact ⟨t, rfl, rfl⟩
    · split
      · split
        · exact ⟨_, rfl, headD_modifyIdx_ne _ hj0 t emptyEntry⟩
        · exact ⟨t, rfl, rfl⟩
      · exact ⟨t, rfl, rfl⟩

theorem foldl_head_preserved (F : Option CodecTable → CipherParams → Option CodecTable)
    (nm : String)
    (hF : ∀ (t : CodecTable) (prm : CipherParams),
        striEq nm ((t.headD emptyEntry).m_name) = false →
        ∃ t1, F (some t) prm = some t1 ∧ t1.headD emptyEntry = t.headD emptyEntry) :
    ∀ (params : List CipherParams) (t : CodecTable),
      striEq nm ((t.headD emptyEntry).m_name) = false →
      ∃ t', params.foldl F (some t) = some t' ∧ t'.headD emptyEntry = t.headD emptyEntry := by
  intro params
  induction params with
  | nil => exact fun t _ => ⟨t, rfl, rfl⟩
  | cons prm rest ih =>
    intro t ht
    obtain ⟨t1, hF1, hh1⟩ := hF t prm ht
    obtain ⟨t', hfold, hh'⟩ := ih t1 (by rw [hh1]; exact ht)
    refine ⟨t', ?_, by rw [hh', hh1]⟩
    rw [List.foldl_cons, hF1, hfold]

/-- C6 counterexample: a URI whose query string contains `hmac_check=false`
but no `cipher` parameter leaves the registry completely untouched (the
`hmac_check` write only happens inside the recognized-cipher block), so the
cell's current value stays 1 instead of being set to 0. -/
theorem C6_counterexample :
    sqlite3mcConfigureFromUri legacyId exTable (some exTable)
        (some [("hmac_check", "false")]) false = (0, some exTable)
    ∧ ((commonTable exTable).getD 1 emptyCell).m_value = 1 := by decide

/-- C6 amended: when the URI also names a recognized cipher (the block at
cipher_config.c:633-688 only runs then) whose name is neither `sqlcipher` nor
the common scope, a false `hmac_check` boolean sets the common `hmac_check`
cell's current value to 0, and a true value leaves the cell untouched, for
any combination of further URI parameters. -/
theorem C6_uri_hmac (legacyConf : Bool → Int → CodecTable → CodecTable)
    (glob cp : CodecTable) (ps : List (String × String)) (cfgDef : Bool)
    (cn : String) (j0 ih : Nat)
    (hcn : uriParameterOf ps "cipher" = some cn)
    (hj : findIdxP (fun e => striEq cn e.m_name) (glob.drop 1) = some j0)
    (hns : striEq cn "sqlcipher" = false)
    (hhead : striEq cn ((cp.headD emptyEntry).m_name) = false)
    (hih : findIdxP (fun p => striEq "hmac_check" p.m_name) (commonTable cp) = some ih)
    (hlo : ((commonTable cp).getD ih emptyCell).m_minValue ≤ 0)
    (hhi : 0 ≤ ((commonTable cp).getD ih emptyCell).m_maxValue) :
    (sqlite3_uri_boolean ps "hmac_check" 1 = 0 →
      ∃ cp', sqlite3mcConfigureFromUri legacyConf glob (some cp) (some ps) cfgDef
          = (0, some cp')
        ∧ ((commonTable cp').getD ih emptyCell).m_value = 0)
    ∧ (sqlite3_uri_boolean ps "hmac_check" 1 = 1 →
      ∃ cp', sqlite3mcConfigureFromUri legacyConf glob (some cp) (some ps) cfgDef
          = (0, some cp')
        ∧ (commonTable cp').getD ih emptyCell = (commonTable cp).getD ih emptyCell) := by
  have hdiff : striEq (stripPfx (if cfgDef then "default:cipher" else "cipher")).2
      "hmac_check" = false := by
    cases cfgDef <;> decide
  obtain ⟨t1, ht1, hh1, hih1, hcell1⟩ :=
    config_preserves_cell cp (if cfgDef then "default:cipher" else "cipher") "hmac_check"
      (Int.ofNat (j0 + 1)) ih hih hdiff
  have hF : ∀ (tt : CodecTable) (prm : CipherParams),
      striEq cn ((tt.headD emptyEntry).m_name) = false →
      ∃ t1', uriCipherStep legacyConf ps cn cfgDef (some tt) prm = some t1'
        ∧ t1'.headD emptyEntry = tt.headD emptyEntry := by
    intro tt prm htt
    unfold uriCipherStep
    by_cases hv : decide (0 ≤ sqlite3_uri_int64 ps prm.m_name (-1)) = true
    · simp only [hv, if_true]
      exact config_cipher_head legacyConf tt cn _ _ hns htt
    · refine ⟨tt, ?_, rfl⟩
      simp only [Bool.not_eq_true] at hv
      simp [hv]
  constructor
  · intro hb
    obtain ⟨t2, ht2, hh2, hval2⟩ := config_writes_named t1 "hmac_check" 0 ih (by decide)
      hih1 (by decide) (by rw [hcell1]; exact hlo) (by rw [hcell1]; exact hhi)
    obtain ⟨t3, ht3, hh3⟩ := foldl_head_preserved
      (uriCipherStep legacyConf ps cn cfgDef) cn hF
      ((glob.getD (j0 + 1) emptyEntry).m_params) t2
      (by rw [hh2, hh1]; exact hhead)
    refine ⟨t3, ?_, ?_⟩
    · simp only [sqlite3mcConfigureFromUri, hcn, hj, hb, hns, ht1, ht2,
        Bool.false_eq_true, if_false]
      rw [if_pos (show ((0 : Int) == 0) = true by decide), ht3]
    · have hct : commonTable t3 = commonTable t2 := by
        unfold commonTable
        rw [hh3]
      rw [hct]
      exact hval2
  · intro hb
    obtain ⟨t3, ht3, hh3⟩ := foldl_head_preserved
      (uriCipherStep legacyConf ps cn cfgDef) cn hF
      ((glob.getD (j0 + 1) emptyEntry).m_params) t1
      (by rw [hh1]; exact hhead)
    refine ⟨t3, ?_, ?_⟩
    · simp only [sqlite3mcConfigureFromUri, hcn, hj, hb, hns, ht1,
        Bool.false_eq_true, if_false]
      rw [if_neg (show ¬((1 : Int) == 0) = true by decide), ht3]
    · have hct : commonTable t3 = commonTable t1 := by
        unfold commonTable
        rw [hh3]
      rw [hct]
      exact hcell1

theorem C6_uri_hmac_witness :
    ∃ cp', sqlite3mcConfigureFromUri legacyId exTable (some exTable)
        (some [("cipher", "chacha20"), ("hmac_check", "false")]) false = (0, some cp')
      ∧ ((commonTable cp').getD 1 emptyCell).m_value = 0 :=
  (C6_uri_hmac legacyId exTable exTable [("cipher", "chacha20"), ("hmac_check", "false")]
    false "chacha20" 0 1 (by decide) (by decide) (by decide) (by decide) (by decide)
    (by decide) (by decide)).1 (by decide)

/-- The combined reachability invariant: every cell in range, and the common
`cipher` cell's range admitting every 1-based descriptor index. -/
def Good (descs : List String) (cp : CodecTable) : Prop :=
  TableInv cp ∧ CipherCellBound descs cp

theorem striEq_symm {a b : String} (h : striEq a b = true) : striEq b a = true := by
  simp only [striEq, beq_iff_eq] at h ⊢
  exact h.symm

theorem striEq_trans2 {a b c : String} (h1 : striEq a b = true) (h2 : striEq b c = true) :
    striEq a c = true := by
  simp only [striEq, beq_iff_eq] at h1 h2 ⊢
  rw [h1, h2]

theorem schemaInv_common {cp : CodecTable} (h : TableInv cp) : SchemaInv (commonTable cp) := by
  cases cp with
  | nil => intro p hp; simp [commonTable, emptyEntry] at hp
  | cons e rest => exact h e (List.mem_cons_self e rest)

theorem schemaInv_getD {cp : CodecTable} (h : TableInv cp) (j : Nat) :
    SchemaInv ((cp.getD j emptyEntry).m_params) := by
  by_cases hj : j < cp.length
  · exact h _ (getD_mem emptyEntry hj)
  · have : cp.getD j emptyEntry = emptyEntry := by
      simp only [List.getD_eq_getElem?_getD]
      rw [List.getElem?_eq_none (by omega)]
      rfl
    rw [this]
    intro p hp
    simp [emptyEntry] at hp

theorem schemaInv_cellWrite {l : ParamTable} {i : Nat} {b : Bool} {v : Int}
    (hinv : SchemaInv l)
    (hv : (l.getD i emptyCell).m_minValue ≤ v ∧ v ≤ (l.getD i emptyCell).m_maxValue) :
    SchemaInv (modifyIdx (cellWrite b v) i l) := by
  intro p hp
  rcases mem_modifyIdx emptyCell hp with h | ⟨hlt, rfl⟩
  · exact hinv p h
  · have hcell := hinv (l.getD i emptyCell) (getD_mem emptyCell hlt)
    unfold CellInv at hcell ⊢
    simp only [List.getD_eq_getElem?_getD] at hv hcell ⊢
    cases b <;> simp <;> omega

theorem cipherBound_mono {descs : List String} {cp cp' : CodecTable}
    (h : ∀ p ∈ commonTable cp', ∃ q ∈ commonTable cp,
        p.m_name = q.m_name ∧ p.m_minValue = q.m_minValue ∧ p.m_maxValue = q.m_maxValue)
    (hb : CipherCellBound descs cp) : CipherCellBound descs cp' := by
  intro p hp hc
  obtain ⟨q, hq, hn, hmin, hmax⟩ := h p hp
  rw [hmin, hmax]
  exact hb q hq (by rw [← hn]; exact hc)

theorem good_setCommon_write {descs : List String} {cp : CodecTable} {i : Nat}
    {b : Bool} {v : Int} (hg : Good descs cp)
    (hv : ((commonTable cp).getD i emptyCell).m_minValue ≤ v
        ∧ v ≤ ((commonTable cp).getD i emptyCell).m_maxValue) :
    Good descs (setCommonTable cp (modifyIdx (cellWrite b v) i (commonTable cp))) := by
  obtain ⟨hinv, hb⟩ := hg
  have htbl : SchemaInv (modifyIdx (cellWrite b v) i (commonTable cp)) :=
    schemaInv_cellWrite (schemaInv_common hinv) hv
  constructor
  · intro e he
    rcases mem_modifyIdx emptyEntry he with h | ⟨hlt, rfl⟩
    · exact hinv e h
    · simpa using htbl
  · apply cipherBound_mono ?_ hb
    intro p hp
    cases cp with
    | nil => simp [setCommonTable, modifyIdx, commonTable, emptyEntry] at hp
    | cons e rest =>
      have hp' : p ∈ modifyIdx (cellWrite b v) i (commonTable (e :: rest)) := hp
      rcases mem_modifyIdx emptyCell hp' with h | ⟨hlt, rfl⟩
      · exact ⟨p, h, rfl, rfl, rfl⟩
      · exact ⟨(commonTable (e :: rest)).getD i emptyCell, getD_mem emptyCell hlt,
          by simp, by simp, by simp⟩

theorem good_entry_write {descs : List String} {cp : CodecTable} {j i : Nat}
    {b : Bool} {v : Int} (hg : Good descs cp)
    (hv : (((cp.getD j emptyEntry).m_params).getD i emptyCell).m_minValue ≤ v
        ∧ v ≤ (((cp.getD j emptyEntry).m_params).getD i emptyCell).m_maxValue) :
    Good descs (modifyIdx
      (fun e => { e with m_params := modifyIdx (cellWrite b v) i ((cp.getD j emptyEntry).m_params) })
      j cp) := by
  obtain ⟨hinv, hb⟩ := hg
  have htbl : SchemaInv (modifyIdx (cellWrite b v) i ((cp.getD j emptyEntry).m_params)) :=
    schemaInv_cellWrite (schemaInv_getD hinv j) hv
  constructor
  · intro e he
    rcases mem_modifyIdx emptyEntry he with h | ⟨hlt, rfl⟩
    · exact hinv e h
    · simpa using htbl
  · apply cipherBound_mono ?_ hb
    intro p hp
    cases cp with
    | nil => simp [modifyIdx, commonTable, emptyEntry] at hp
    | cons e rest =>
      cases j with
      | succ n => exact ⟨p, hp, rfl, rfl, rfl⟩
      | zero =>
        have hp' : p ∈ modifyIdx (cellWrite b v) i (e.m_params) := hp
        rcases mem_modifyIdx emptyCell hp' with h | ⟨hlt, rfl⟩
        · exact ⟨p, h, rfl, rfl, rfl⟩
        · exact ⟨e.m_params.getD i emptyCell, getD_mem emptyCell hlt,
            by simp, by simp, by simp⟩

theorem good_config (descs : List String) (dbp : Bool) (cp : CodecTable)
    (nm : Option String) (v : Int) (hg : Good descs cp) :
    ∃ t', (sqlite3mc_config dbp (some cp) nm v).2 = some t' ∧ Good descs t' := by
  cases nm with
  | none => exact ⟨cp, rfl, hg⟩
  | some name0 =>
    simp only [sqlite3mc_config]
    split
    · exact ⟨cp, rfl, hg⟩
    · split
      · exact ⟨cp, rfl, hg⟩
      · split
        · rename_i i heq hcond
          refine ⟨_, rfl, good_setCommon_write hg ?_⟩
          simp only [Bool.and_eq_true, decide_eq_true_eq] at hcond
          exact ⟨by tauto, by tauto⟩
        · exact ⟨cp, rfl, hg⟩

set_option maxHeartbeats 2000000 in
theorem good_config_cipher (descs : List String)
    (lc : Bool → Int → CodecTable → CodecTable)
    (hleg : ∀ b v t, Good descs t → Good descs (lc b v t))
    (dbp : Bool) (cp : CodecTable) (cn pn : Option String) (v : Int)
    (hg : Good descs cp) :
    ∃ t', (sqlite3mc_config_cipher lc dbp (some cp) cn pn v).table = some t'
      ∧ Good descs t' := by
  simp only [sqlite3mc_config_cipher]
  repeat' split
  all_goals
    first
      | exact ⟨cp, rfl, hg⟩
      | exact ⟨_, rfl, hg⟩
      | exact ⟨_, rfl, hleg _ _ _ hg⟩
      | (refine ⟨_, rfl, good_entry_write hg ?_⟩
         simp only [Bool.and_eq_true, decide_eq_true_eq] at *
         omega)
      | (refine ⟨_, rfl, good_entry_write (hleg _ _ _ hg) ?_⟩
         simp only [Bool.and_eq_true, decide_eq_true_eq] at *
         omega)

set_option maxHeartbeats 2000000 in
theorem good_adapterWriteCommon (descs : List String) (fl : PfxFlags) (n1 : String)
    (i : Nat) (cp : CodecTable) (a1 : SqlValue) (hg : Good descs cp)
    (hi : findIdxP (fun p => striEq n1 p.m_name) (commonTable cp) = some i) :
    Good descs (adapterWriteCommon descs fl n1 i cp a1).2 := by
  have hilen : i < (commonTable cp).length := findIdxP_lt_length hi
  have hsat := findIdxP_sat emptyCell hi
  simp only [adapterWriteCommon]
  repeat' split
  all_goals
    first
      | exact hg
      | (refine good_setCommon_write hg ?_
         try simp only [Bool.and_eq_true, decide_eq_true_eq] at *
         omega)
      | (refine good_setCommon_write hg ?_
         have hcipher : striEq "cipher" ((commonTable cp).getD i emptyCell).m_name = true :=
           striEq_trans2 (striEq_symm (by assumption)) hsat
         have hbound := hg.2 _ (getD_mem emptyCell hilen) hcipher
         have hjlen := findIdxP_lt_length (show findIdxP _ descs = some _ by assumption)
         omega)

set_option maxHeartbeats 2000000 in
theorem good_adapterCipherPath (descs : List String)
    (lc : Bool → Int → CodecTable → CodecTable)
    (hleg : ∀ b v t, Good descs t → Good descs (lc b v t))
    (argc : Nat) (n1 : String) (jc : Nat) (cp : CodecTable) (a1 a2 : SqlValue)
    (hg : Good descs cp) :
    Good descs (adapterCipherPath lc argc n1 jc cp a1 a2).2 := by
  simp only [adapterCipherPath]
  repeat' split
  all_goals
    first
      | exact hg
      | exact hleg _ _ _ hg
      | (refine good_entry_write hg ?_
         simp only [Bool.and_eq_true, decide_eq_true_eq] at *
         omega)
      | (refine good_entry_write (hleg _ _ _ hg) ?_
         simp only [Bool.and_eq_true, decide_eq_true_eq] at *
         omega)

set_option maxHeartbeats 2000000 in
theorem good_adapter (descs : List String)
    (lc : Bool → Int → CodecTable → CodecTable)
    (hleg : ∀ b v t, Good descs t → Good descs (lc b v t))
    (cp : CodecTable) (args : List SqlValue) (hg : Good descs cp) :
    Good descs (sqlite3mcConfigParams lc descs cp args).2 := by
  simp only [sqlite3mcConfigParams]
  repeat' split
  all_goals
    first
      | exact hg
      | (rename_i i heq h1 h2
         exact good_adapterWriteCommon descs _ _ i cp _ hg heq)
      | exact good_adapterCipherPath descs lc hleg _ _ _ cp _ _ hg

theorem good_uriCipherStep (descs : List String)
    (lc : Bool → Int → CodecTable → CodecTable)
    (hleg : ∀ b v t, Good descs t → Good descs (lc b v t))
    (ps : List (String × String)) (cn : String) (cfg : Bool)
    (t : CodecTable) (prm : CipherParams) (hg : Good descs t) :
    ∃ t1, uriCipherStep lc ps cn cfg (some t) prm = some t1 ∧ Good descs t1 := by
  simp only [uriCipherStep]
  split
  · exact good_config_cipher descs lc hleg true t (some cn) _ _ hg
  · exact ⟨t, rfl, hg⟩

theorem foldl_good (descs : List String)
    (F : Option CodecTable → CipherParams → Option CodecTable)
    (hF : ∀ (t : CodecTable) (prm : CipherParams), Good descs t →
        ∃ t1, F (some t) prm = some t1 ∧ Good descs t1) :
    ∀ (params : List CipherParams) (t : CodecTable), Good descs t →
      ∃ t', params.foldl F (some t) = some t' ∧ Good descs t' := by
  intro params
  induction params with
  | nil => exact fun t hg => ⟨t, rfl, hg⟩
  | cons prm rest ih =>
    intro t hg
    obtain ⟨t1, h1, hg1⟩ := hF t prm hg
    obtain ⟨t', h', hg'⟩ := ih t1 hg1
    refine ⟨t', ?_, hg'⟩
    rw [List.foldl_cons, h1, h']

set_option maxHeartbeats 2000000 in
theorem good_fromUri (descs : List String)
    (lc : Bool → Int → CodecTable → CodecTable)
    (hleg : ∀ b v t, Good descs t → Good descs (lc b v t))
    (glob : CodecTable) (cp : CodecTable)
    (uri : Option (List (String × String))) (cfg : Bool) (hg : Good descs cp) :
    ∃ t', (sqlite3mcConfigureFromUri lc glob (some cp) uri cfg).2 = some t'
      ∧ Good descs t' := by
  cases uri with
  | none => exact ⟨cp, rfl, hg⟩
  | some ps =>
    simp only [sqlite3mcConfigureFromUri]
    split
    · exact ⟨cp, rfl, hg⟩
    · rename_i cn hcn
      split
      · exact ⟨cp, rfl, hg⟩
      · rename_i j0 hj
        obtain ⟨t1, ht1, hg1⟩ := good_config descs true cp
          (some (if cfg then "default:cipher" else "cipher")) (Int.ofNat (j0 + 1)) hg
        rw [ht1]
        have hst2 : ∃ t2, (if (sqlite3_uri_boolean ps "hmac_check" 1 == 0) = true
            then (sqlite3mc_config true (some t1) (some "hmac_check")
                   (sqlite3_uri_boolean ps "hmac_check" 1)).2
            else some t1) = some t2 ∧ Good descs t2 := by
          split
          · exact good_config descs true t1 (some "hmac_check") _ hg1
          · exact ⟨t1, rfl, hg1⟩
        obtain ⟨t2, ht2, hg2⟩ := hst2
        rw [ht2]
        have hst3 : ∃ t3, (if striEq cn "sqlcipher" = true
            then (if (decide (0 < sqlite3_uri_int64 ps "legacy" 0)
                      && decide (sqlite3_uri_int64 ps "legacy" 0 ≤ SQLCIPHER_VERSION_MAX)) = true
                  then Option.map (lc cfg (sqlite3_uri_int64 ps "legacy" 0)) (some t2)
                  else some t2)
            else some t2) = some t3 ∧ Good descs t3 := by
          split
          · split
            · exact ⟨lc cfg (sqlite3_uri_int64 ps "legacy" 0) t2, rfl, hleg _ _ _ hg2⟩
            · exact ⟨t2, rfl, hg2⟩
          · exact ⟨t2, rfl, hg2⟩
        obtain ⟨t3, ht3, hg3⟩ := hst3
        rw [ht3]
        exact foldl_good descs _ (good_uriCipherStep descs lc hleg ps cn cfg)
          ((glob.getD (j0 + 1) emptyEntry).m_params) t3 hg3

theorem good_mcStep (descs : List String)
    (lc : Bool → Int → CodecTable → CodecTable)
    (hleg : ∀ b v t, Good descs t → Good descs (lc b v t))
    (glob : CodecTable) (t : CodecTable) (op : MCOp) (hg : Good descs t) :
    Good descs (mcStep lc descs glob t op) := by
  cases op with
  | config dbp nm v =>
    obtain ⟨t', ht', hgt⟩ := good_config descs dbp t nm v hg
    simp [mcStep, ht']
    exact hgt
  | configCipher dbp cn pn v =>
    obtain ⟨t', ht', hgt⟩ := good_config_cipher descs lc hleg dbp t cn pn v hg
    simp [mcStep, ht']
    exact hgt
  | adapter args => exact good_adapter descs lc hleg t args hg
  | fromUri uri cfg =>
    obtain ⟨t', ht', hgt⟩ := good_fromUri descs lc hleg glob t uri cfg hg
    simp [mcStep, ht']
    exact hgt

/-- C3: starting from any registry satisfying the cell invariant (with the
common `cipher` cell's range admitting every descriptor index, as the static
tables do, and the external SQLCipher legacy configurator preserving the
invariant), every sequence of `config`, `configCipher`, adapter (1/2/3
argument) and URI-ingester operations yields a registry in which every cell
of every scope satisfies `min ≤ current ≤ max` and `min ≤ default ≤ max`. -/
theorem C3_invariant (legacyConf : Bool → Int → CodecTable → CodecTable)
    (descs : List String) (glob : CodecTable) (cp0 : CodecTable)
    (hleg : ∀ b v t, Good descs t → Good descs (legacyConf b v t))
    (h0 : TableInv cp0) (hb0 : CipherCellBound descs cp0) :
    ∀ ops : List MCOp, TableInv (ops.foldl (mcStep legacyConf descs glob) cp0) := by
  have hfold : ∀ (ops : List MCOp) (t : CodecTable), Good descs t →
      Good descs (ops.foldl (mcStep legacyConf descs glob) t) := by
    intro ops
    induction ops with
    | nil => exact fun t hg => hg
    | cons op rest ih =>
      intro t hg
      rw [List.foldl_cons]
      exact ih _ (good_mcStep descs legacyConf hleg glob t op hg)
  exact fun ops => (hfold ops cp0 ⟨h0, hb0⟩).1

theorem C3_invariant_witness :
    (∀ b v t, Good exDescs t → Good exDescs (legacyId b v t))
    ∧ TableInv exTable ∧ CipherCellBound exDescs exTable
    ∧ TableInv ([MCOp.config true (some "default:kdf_iter") 9999,
        MCOp.adapter [.text "cipher", .text "sqlcipher"],
        MCOp.configCipher true (some "sqlcipher") (some "fast_kdf_iter") 4,
        MCOp.fromUri (some [("cipher", "chacha20"), ("hmac_check", "false")]) false
       ].foldl (mcStep legacyId exDescs exTable) exTable) :=
  ⟨fun _ _ _ h => h, by decide, by decide,
   C3_invariant legacyId exDescs exTable exTable (fun _ _ _ h => h)
     (by decide) (by decide) _⟩
